import Mathlib

/-!
Verification of the worker runtime core of qhxin/blueboat
(`rusty-workers-runtime/src/runtime.rs` and `src/api/mod.rs`).

Time instants and durations are modelled as natural numbers (abstract time
units); machine integers that cannot overflow in the modelled paths are
modelled as `Nat`.
-/

namespace Blueboat

/-! ## Monitor time control (runtime.rs, `Runtime::monitor_task`, lines 99-149) -/

/-- The `TimerControl` message alphabet received on the time-control channel. -/
inductive TimerControl where
  | start
  | stop
  | reset
deriving DecidableEq, Repr

/-- The Monitor's mutable state inside `monitor_task`: the remaining time
budget (`timectl.budget`) and the optional armed deadline (`deadline`),
both in abstract time units. -/
structure MonitorState where
  budget : Nat
  deadline : Option Nat
deriving DecidableEq, Repr

/-- One `TimerControl` message handled by `monitor_task` (runtime.rs lines
111-127), at current instant `now`:
`Start` sets `deadline = Some(now + budget)`;
`Stop` sets `budget` to `0` if `now > deadline` else `deadline - now`
(when a deadline is armed) and clears the deadline;
`Reset` sets `budget` back to `initial_budget`. -/
def monitorStep (initial_budget : Nat) (s : MonitorState) (op : TimerControl)
    (now : Nat) : MonitorState :=
  match op with
  | .start => { s with deadline := some (now + s.budget) }
  | .stop =>
      { budget :=
          match s.deadline with
          | some deadline => if now > deadline then 0 else deadline - now
          | none => s.budget,
        deadline := none }
  | .reset => { s with budget := initial_budget }

/-- The state of `monitor_task` after processing a list of timestamped
`TimerControl` messages, starting from state `s`. -/
def runMonitor (initial_budget : Nat) (s : MonitorState)
    (evs : List (TimerControl × Nat)) : MonitorState :=
  evs.foldl (fun s e => monitorStep initial_budget s e.1 e.2) s

/-- The timestamp of the last event in the trace, or `t` if the trace is
empty. -/
def lastTime (t : Nat) (evs : List (TimerControl × Nat)) : Nat :=
  evs.foldl (fun a e => max a e.2) t

/-- The Monitor's entry state: `budget = initial_budget` (captured at line
105), no deadline armed. -/
def monitorInit (initial_budget : Nat) : MonitorState :=
  { budget := initial_budget, deadline := none }

/-- Timestamps in the trace are non-decreasing and all at least `t`. -/
def MonotoneFrom (t : Nat) (evs : List (TimerControl × Nat)) : Prop :=
  List.Chain (fun a b => a ≤ b) t (evs.map Prod.snd)

/-- Invariant maintained by the Monitor at current instant `t`: the budget
never exceeds the initial budget, and an armed deadline lies at most
`budget` time units in the future. -/
def MonitorInv (initial_budget : Nat) (s : MonitorState) (t : Nat) : Prop :=
  s.budget ≤ initial_budget ∧
    ∀ d, s.deadline = some d → d ≤ t + s.budget

lemma monitorInv_mono (initial_budget : Nat) (s : MonitorState) {t u : Nat}
    (htu : t ≤ u) (h : MonitorInv initial_budget s t) :
    MonitorInv initial_budget s u := by
  refine ⟨h.1, fun d hd => ?_⟩
  have := h.2 d hd
  omega

lemma monitorInv_step (initial_budget : Nat) (s : MonitorState)
    (op : TimerControl) {t now : Nat} (htn : t ≤ now)
    (h : MonitorInv initial_budget s t) :
    MonitorInv initial_budget (monitorStep initial_budget s op now) now := by
  obtain ⟨hb, hd⟩ := h
  cases op with
  | start =>
      refine ⟨hb, fun d hdl => ?_⟩
      simp only [monitorStep, Option.some.injEq] at hdl ⊢
      omega
  | stop =>
      cases hdl : s.deadline with
      | none =>
          refine ⟨?_, fun d hc => by simp [monitorStep, hdl] at hc⟩
          simpa [monitorStep, hdl] using hb
      | some d =>
          have hdt := hd d hdl
          refine ⟨?_, fun d' hc => by simp [monitorStep, hdl] at hc⟩
          simp only [monitorStep, hdl]
          split <;> omega
  | reset =>
      refine ⟨le_refl _, fun d hdl => ?_⟩
      simp only [monitorStep] at hdl ⊢
      have := hd d hdl
      omega

lemma monitorInv_run (initial_budget : Nat)
    (evs : List (TimerControl × Nat)) :
    ∀ (s : MonitorState) (t : Nat), MonitorInv initial_budget s t →
      MonotoneFrom t evs →
      MonitorInv initial_budget (runMonitor initial_budget s evs)
        (lastTime t evs) ∧ t ≤ lastTime t evs := by
  induction evs with
  | nil => intro s t hinv _; exact ⟨hinv, le_refl t⟩
  | cons e rest ih =>
      intro s t hinv hmono
      simp only [MonotoneFrom, List.map_cons, List.chain_cons] at hmono
      obtain ⟨hte, hchain⟩ := hmono
      have hstep := monitorInv_step initial_budget s e.1 hte hinv
      have hmax : MonitorInv initial_budget
          (monitorStep initial_budget s e.1 e.2) (max t e.2) :=
        monitorInv_mono _ _ (le_max_right t e.2) hstep
      have hchain2 : MonotoneFrom (max t e.2) (rest.map id) := by
        simp only [MonotoneFrom, List.map_map]
        have : rest.map (Prod.snd ∘ id) = rest.map Prod.snd := by
          simp
        rw [this]
        cases hrest : rest.map Prod.snd with
        | nil => exact List.Chain.nil
        | cons b l =>
            rw [hrest] at hchain
            rcases hchain with _ | ⟨hb, hl⟩
            exact List.Chain.cons (by omega) hl
      have := ih (monitorStep initial_budget s e.1 e.2) (max t e.2)
        hmax (by simpa using hchain2)
      refine ⟨?_, ?_⟩
      · simpa [runMonitor, lastTime] using this.1
      · have h2 := this.2
        simp only [lastTime, List.foldl_cons]
        simp only [lastTime] at h2
        omega

/-- **C1.** On `Start` the Monitor sets `deadline = now + budget` leaving
the budget unchanged; on `Stop` (with a deadline armed) it sets
`budget := max(0, deadline − now)` and clears the deadline; on `Reset` it
restores `budget := initial_budget` leaving the deadline untouched. -/
theorem monitor_timer_control_semantics (initial_budget : Nat)
    (s : MonitorState) (now : Nat) :
    monitorStep initial_budget s .start now =
      { budget := s.budget, deadline := some (now + s.budget) } ∧
    (∀ d, s.deadline = some d →
      ((monitorStep initial_budget s .stop now).budget : Int) =
          max 0 ((d : Int) - (now : Int)) ∧
        (monitorStep initial_budget s .stop now).deadline = none) ∧
    monitorStep initial_budget s .reset now =
      { budget := initial_budget, deadline := s.deadline } := by
  refine ⟨rfl, fun d hd => ⟨?_, rfl⟩, rfl⟩
  simp only [monitorStep, hd]
  split <;> omega

theorem monitor_timer_control_semantics_witness :
    (⟨7, some 5⟩ : MonitorState).deadline = some 5 ∧
      ((monitorStep 10 ⟨7, some 5⟩ .stop 3).budget : Int) =
        max 0 ((5 : Int) - (3 : Int)) := by
  refine ⟨rfl, ?_⟩
  exact ((monitor_timer_control_semantics 10 ⟨7, some 5⟩ 3).2.1 5 rfl).1

/-- **C3.** Along any monotone trace of `Start`/`Stop`/`Reset` events the
Monitor's budget never exceeds the initial budget; moreover a further
`Start` leaves the budget unchanged, a further `Stop` can only decrease
it, and a further `Reset` restores it to exactly the initial budget. -/
theorem monitor_budget_never_exceeds_initial (initial_budget : Nat)
    (evs : List (TimerControl × Nat)) (t : Nat)
    (hmono : MonotoneFrom 0 evs) (ht : lastTime 0 evs ≤ t) :
    (runMonitor initial_budget (monitorInit initial_budget) evs).budget ≤
        initial_budget ∧
    (monitorStep initial_budget
        (runMonitor initial_budget (monitorInit initial_budget) evs)
        .start t).budget =
      (runMonitor initial_budget (monitorInit initial_budget) evs).budget ∧
    (monitorStep initial_budget
        (runMonitor initial_budget (monitorInit initial_budget) evs)
        .stop t).budget ≤
      (runMonitor initial_budget (monitorInit initial_budget) evs).budget ∧
    (monitorStep initial_budget
        (runMonitor initial_budget (monitorInit initial_budget) evs)
        .reset t).budget = initial_budget := by
  have hinv0 : MonitorInv initial_budget (monitorInit initial_budget) 0 :=
    ⟨le_refl _, fun d hd => by simp [monitorInit] at hd⟩
  have hrun := monitorInv_run initial_budget evs _ 0 hinv0 hmono
  obtain ⟨⟨hb, hd⟩, _⟩ := hrun
  refine ⟨hb, rfl, ?_, rfl⟩
  set s := runMonitor initial_budget (monitorInit initial_budget) evs
  cases hdl : s.deadline with
  | none => simp [monitorStep, hdl]
  | some d =>
      have := hd d hdl
      simp only [monitorStep, hdl]
      split <;> omega

theorem monitor_budget_never_exceeds_initial_witness :
    MonotoneFrom 0 [(TimerControl.start, 2), (TimerControl.stop, 5),
        (TimerControl.reset, 5), (TimerControl.start, 6)] ∧
    lastTime 0 [(TimerControl.start, 2), (TimerControl.stop, 5),
        (TimerControl.reset, 5), (TimerControl.start, 6)] ≤ 9 ∧
    (runMonitor 100 (monitorInit 100) [(TimerControl.start, 2),
        (TimerControl.stop, 5), (TimerControl.reset, 5),
        (TimerControl.start, 6)]).budget ≤ 100 := by
  refine ⟨?_, ?_, ?_⟩
  · simp [MonotoneFrom]
  · simp [lastTime]
  · exact (monitor_budget_never_exceeds_initial 100 _ 9
      (by simp [MonotoneFrom]) (by simp [lastTime])).1

/-- **C10.** A `Stop` received while no deadline is armed leaves the budget
unchanged and the deadline cleared. -/
theorem monitor_stop_without_deadline (initial_budget : Nat)
    (s : MonitorState) (now : Nat) (h : s.deadline = none) :
    monitorStep initial_budget s .stop now =
      { budget := s.budget, deadline := none } := by
  simp [monitorStep, h]

theorem monitor_stop_without_deadline_witness :
    (⟨42, none⟩ : MonitorState).deadline = none ∧
      monitorStep 100 ⟨42, none⟩ .stop 17 = ⟨42, none⟩ :=
  ⟨rfl, monitor_stop_without_deadline 100 ⟨42, none⟩ 17 rfl⟩

/-! ## The runtime Registry (runtime.rs, `Runtime`, lines 13-24 and 151-224)

`WorkerHandle` is an opaque unique identifier (equality and hashing only);
it is modelled as `Nat`.  `RequestObject` and `ResponseObject` are opaque
to the Registry, which only forwards them. -/

/-- Modelled from the spec: `RequestObject` (rusty_workers::types, outside
the source slice) is a self-contained request value, opaque here. -/
structure RequestObject where
  raw : Nat
deriving DecidableEq

/-- Modelled from the spec: `ResponseObject` is a self-contained response
value, opaque here. -/
structure ResponseObject where
  raw : Nat
deriving DecidableEq

/-- Modelled from the spec (§6/§7): execution error kinds surfaced by a
`fetch`. -/
inductive ExecutionError where
  | noSuchWorker
  | terminated
  | scriptError (msg : String)
  | timeout
deriving DecidableEq

/-- Modelled from the spec (§4.3): an `InstanceHandle` is the async facade
of a live instance; the Registry only uses its `fetch` behaviour, modelled
as a function from requests to results. -/
structure InstanceHandle where
  fetch : RequestObject → Except ExecutionError ResponseObject

/-- `WorkerState` (runtime.rs lines 21-24): the owned instance handle plus
the memory statistic published by the statistics loop. -/
structure WorkerState where
  handle : InstanceHandle
  memory_bytes : Nat

/-- Modelled from the spec (§4.4): the `lru_time_cache::LruCache` used for
`Runtime::instances`, restricted to the operations the verified paths
exercise (lookup, access-touch promotion, removal, insertion).  Entries
are kept most-recently-used first; TTL expiry and capacity eviction are
time-driven and not exercised by the claims below. -/
structure LruCache (α : Type) where
  entries : List (Nat × α)

/-- Key lookup without promotion (`peek`). -/
def LruCache.lookup {α : Type} (c : LruCache α) (k : Nat) : Option α :=
  c.entries.lookup k

/-- Modelled from the spec: `get` promotes the entry to most-recently-used
and returns it. -/
def LruCache.get {α : Type} (c : LruCache α) (k : Nat) :
    Option α × LruCache α :=
  match c.entries.lookup k with
  | none => (none, c)
  | some v => (some v, ⟨(k, v) :: c.entries.filter (fun p => p.1 != k)⟩)

/-- Modelled from the spec: `remove` deletes the entry and returns it when
it was present. -/
def LruCache.remove {α : Type} (c : LruCache α) (k : Nat) :
    Option α × LruCache α :=
  (c.entries.lookup k, ⟨c.entries.filter (fun p => p.1 != k)⟩)

/-- Modelled from the spec: `insert` stores the entry as
most-recently-used. -/
def LruCache.insert {α : Type} (c : LruCache α) (k : Nat) (v : α) :
    LruCache α :=
  ⟨(k, v) :: c.entries.filter (fun p => p.1 != k)⟩

lemma lookup_filter_ne {α : Type} (l : List (Nat × α)) (k : Nat) :
    (l.filter (fun p => p.1 != k)).lookup k = none := by
  induction l with
  | nil => rfl
  | cons p t ih =>
      by_cases hp : p.1 = k
      · simp [List.filter_cons, hp, ih]
      · simp only [List.filter_cons]
        rw [if_pos (by simpa using hp)]
        have hbeq : (k == p.1) = false := by
          simp only [beq_eq_false_iff_ne, ne_eq]
          exact fun h => hp h.symm
        simp [List.lookup, hbeq, ih]

/-- `Runtime::terminate` (runtime.rs lines 161-167): remove the entry from
the Registry; return whether it existed. -/
def Runtime.terminate (instances : LruCache WorkerState) (worker_handle : Nat) :
    Bool × LruCache WorkerState :=
  let r := instances.remove worker_handle
  (r.1.isSome, r.2)

/-- `Runtime::fetch` (runtime.rs lines 169-183): look the handle up with the
promoting `get`, return `NoSuchWorker` when absent, otherwise clone the
instance handle and forward the request, propagating its result. -/
def Runtime.fetch (instances : LruCache WorkerState) (worker_handle : Nat)
    (req : RequestObject) :
    Except ExecutionError ResponseObject × LruCache WorkerState :=
  match instances.get worker_handle with
  | (none, instances') => (.error .noSuchWorker, instances')
  | (some st, instances') => (st.handle.fetch req, instances')

/-- Modelled from the spec: `GenericError` (rusty_workers::types, outside
the source slice), restricted to the variants the spawn path produces. -/
inductive GenericError where
  | scriptInitException (msg : String)
  | other (msg : String)
deriving DecidableEq

/-- The effects of one `Runtime::spawn` call: the returned result, the
Registry after the call, and whether a Monitor task was spawned. -/
structure SpawnEffects where
  result : Except GenericError Nat
  registry : LruCache WorkerState
  monitorSpawned : Bool

/-- `Runtime::spawn` (runtime.rs lines 185-224), parameterised by the
outcome of the instance thread's one-shot result channel
(`instance_thread`, lines 63-98): `none` models a dropped sender,
`some (.error e)` models a reported initialization failure, and
`some (.ok handle)` models successful startup.  Only on success is the
`WorkerState` inserted and the Monitor task spawned. -/
def Runtime.spawn (instances : LruCache WorkerState) (worker_handle : Nat)
    (initResult : Option (Except GenericError InstanceHandle)) :
    SpawnEffects :=
  match initResult with
  | some (.ok handle) =>
      { result := .ok worker_handle
        registry := instances.insert worker_handle
          { handle := handle, memory_bytes := 0 }
        monitorSpawned := true }
  | some (.error e) =>
      { result := .error e, registry := instances, monitorSpawned := false }
  | none =>
      { result := .error (.scriptInitException "script initialization failed")
        registry := instances, monitorSpawned := false }

/-! ## One iteration of the Monitor's select loop (runtime.rs lines 107-148) -/

/-- An event delivered to the Monitor's `select!`: either a value received
on the time-control channel (`none` when the channel closed) or the firing
of the armed deadline timer. -/
inductive MonitorEvent where
  | channelMsg (op : Option TimerControl) (now : Nat)
  | deadlineFired
deriving DecidableEq

/-- `wait_until` (runtime.rs lines 263-269) completes only when a deadline
is armed; with `deadline = None` it pends forever, so the timer arm of the
`select!` can fire only when `deadline.isSome`. -/
def waitUntilCanFire (deadline : Option Nat) : Bool :=
  deadline.isSome

/-- Whether the Monitor loop continues after an iteration. -/
inductive MonitorOutcome where
  | continuing (s : MonitorState)
  | exited
deriving DecidableEq

/-- The observable result of one iteration of the Monitor loop: the loop
outcome, the Registry afterwards, and whether `terminate_for_time_limit`
was invoked on the stored handle. -/
structure MonitorIterResult where
  outcome : MonitorOutcome
  registry : LruCache WorkerState
  terminatedForTimeLimit : Bool

/-- One iteration of `monitor_task`'s `select!` loop (runtime.rs lines
107-148): a received message is handled by `monitorStep` and the loop
continues; a closed channel removes the Registry entry (tolerating its
absence) and exits; a fired deadline removes the Registry entry, calls
`terminate_for_time_limit` exactly when the entry was still present, and
exits. -/
def monitorIter (initial_budget : Nat) (s : MonitorState)
    (instances : LruCache WorkerState) (worker_handle : Nat)
    (ev : MonitorEvent) : MonitorIterResult :=
  match ev with
  | .channelMsg (some op) now =>
      { outcome := .continuing (monitorStep initial_budget s op now)
        registry := instances, terminatedForTimeLimit := false }
  | .channelMsg none _ =>
      { outcome := .exited, registry := (instances.remove worker_handle).2
        terminatedForTimeLimit := false }
  | .deadlineFired =>
      match instances.remove worker_handle with
      | (found, instances') =>
          { outcome := .exited, registry := instances'
            terminatedForTimeLimit := found.isSome }

/-- **C2.** The Monitor loop ends in exactly two cases: a closed time-control
channel removes the Registry entry (tolerating its absence) without calling
`terminate_for_time_limit`; a fired deadline (possible only when armed, by
`wait_until`) removes the Registry entry and calls
`terminate_for_time_limit` exactly when the entry was still present.  Every
received control message keeps the loop running. -/
theorem monitor_exit_cases (initial_budget : Nat) (s : MonitorState)
    (instances : LruCache WorkerState) (worker_handle : Nat) :
    (∀ op now,
      monitorIter initial_budget s instances worker_handle
          (.channelMsg (some op) now) =
        ⟨.continuing (monitorStep initial_budget s op now), instances,
          false⟩) ∧
    (∀ now,
      monitorIter initial_budget s instances worker_handle
          (.channelMsg none now) =
        ⟨.exited, (instances.remove worker_handle).2, false⟩) ∧
    (waitUntilCanFire s.deadline = true →
      monitorIter initial_budget s instances worker_handle .deadlineFired =
        ⟨.exited, (instances.remove worker_handle).2,
          (instances.lookup worker_handle).isSome⟩) ∧
    (∀ ev,
      (monitorIter initial_budget s instances worker_handle ev).outcome =
          .exited ↔
        ((∃ now, ev = .channelMsg none now) ∨ ev = .deadlineFired)) := by
  refine ⟨fun op now => rfl, fun now => rfl, fun _ => rfl, fun ev => ?_⟩
  cases ev with
  | channelMsg op now =>
      cases op with
      | some op => simp [monitorIter]
      | none => simp [monitorIter]
  | deadlineFired => simp [monitorIter]

theorem monitor_exit_cases_witness :
    waitUntilCanFire (⟨5, some 9⟩ : MonitorState).deadline = true ∧
      monitorIter 10 ⟨5, some 9⟩ ⟨[]⟩ 3 .deadlineFired =
        ⟨.exited, ((⟨[]⟩ : LruCache WorkerState).remove 3).2,
          ((⟨[]⟩ : LruCache WorkerState).lookup 3).isSome⟩ :=
  ⟨rfl, (monitor_exit_cases 10 ⟨5, some 9⟩ ⟨[]⟩ 3).2.2.1 rfl⟩

/-- **C6.** `fetch` returns `NoSuchWorker` exactly when the handle is absent
at lookup time (given that a live instance never reports `NoSuchWorker`
itself); when present, the entry is promoted to most-recently-used and the
request is forwarded to the instance with its result — including any
error — propagated to the caller. -/
theorem fetch_lookup_promote_forward (instances : LruCache WorkerState)
    (worker_handle : Nat) (req : RequestObject)
    (hinst : ∀ st, instances.lookup worker_handle = some st →
      st.handle.fetch req ≠ .error .noSuchWorker) :
    ((Runtime.fetch instances worker_handle req).1 =
        .error .noSuchWorker ↔ instances.lookup worker_handle = none) ∧
    (instances.lookup worker_handle = none →
      (Runtime.fetch instances worker_handle req).2 = instances) ∧
    (∀ st, instances.lookup worker_handle = some st →
      (Runtime.fetch instances worker_handle req).1 = st.handle.fetch req ∧
      (Runtime.fetch instances worker_handle req).2.entries =
        (worker_handle, st) ::
          instances.entries.filter (fun p => p.1 != worker_handle)) := by
  cases hl : instances.entries.lookup worker_handle with
  | none =>
      have hl' : instances.lookup worker_handle = none := hl
      refine ⟨?_, fun _ => ?_, fun st hst => ?_⟩
      · simp [Runtime.fetch, LruCache.get, hl, hl']
      · simp [Runtime.fetch, LruCache.get, hl]
      · rw [hl'] at hst; cases hst
  | some st =>
      have hl' : instances.lookup worker_handle = some st := hl
      have hne := hinst st hl'
      refine ⟨?_, fun hc => ?_, fun st' hst' => ?_⟩
      · simp only [Runtime.fetch, LruCache.get, hl, hl']
        simp [hne]
      · rw [hl'] at hc; cases hc
      · rw [hl'] at hst'
        injection hst' with hst'
        subst hst'
        constructor
        · simp [Runtime.fetch, LruCache.get, hl]
        · simp [Runtime.fetch, LruCache.get, hl]

theorem fetch_lookup_promote_forward_witness :
    (∀ st, (⟨[(1, ⟨⟨fun _ => .ok ⟨0⟩⟩, 0⟩)]⟩ :
        LruCache WorkerState).lookup 1 = some st →
      st.handle.fetch ⟨5⟩ ≠ .error .noSuchWorker) ∧
    ((Runtime.fetch ⟨[(1, ⟨⟨fun _ => .ok ⟨0⟩⟩, 0⟩)]⟩ 1 ⟨5⟩).1 =
        .error .noSuchWorker ↔
      (⟨[(1, ⟨⟨fun _ => .ok ⟨0⟩⟩, 0⟩)]⟩ :
        LruCache WorkerState).lookup 1 = none) := by
  have hinst : ∀ st, (⟨[(1, ⟨⟨fun _ => .ok ⟨0⟩⟩, 0⟩)]⟩ :
      LruCache WorkerState).lookup 1 = some st →
      st.handle.fetch ⟨5⟩ ≠ .error .noSuchWorker := by
    intro st hst
    simp only [LruCache.lookup, List.lookup] at hst
    norm_num at hst
    subst hst
    simp
  exact ⟨hinst,
    (fetch_lookup_promote_forward ⟨[(1, ⟨⟨fun _ => .ok ⟨0⟩⟩, 0⟩)]⟩ 1 ⟨5⟩
      hinst).1⟩

/-- **C7.** `spawn` fails without inserting a `WorkerState` or spawning a
Monitor in both failure cases: a dropped result sender yields
`ScriptInitException("script initialization failed")`, and an
initialization error reported by the instance thread is propagated
verbatim.  Only on successful startup is the state inserted and the
Monitor task spawned. -/
theorem spawn_insert_only_on_success (instances : LruCache WorkerState)
    (worker_handle : Nat) :
    (Runtime.spawn instances worker_handle none =
      ⟨.error (.scriptInitException "script initialization failed"),
        instances, false⟩) ∧
    (∀ e, Runtime.spawn instances worker_handle (some (.error e)) =
      ⟨.error e, instances, false⟩) ∧
    (∀ handle, Runtime.spawn instances worker_handle (some (.ok handle)) =
      ⟨.ok worker_handle,
        instances.insert worker_handle ⟨handle, 0⟩, true⟩) :=
  ⟨rfl, fun _ => rfl, fun _ => rfl⟩

/-- **C8.** `terminate` returns whether the entry existed and removes it;
an immediately repeated `terminate` (it is a total function, hence cannot
panic) finds nothing and returns `false`. -/
theorem terminate_idempotent (instances : LruCache WorkerState)
    (worker_handle : Nat) :
    (Runtime.terminate instances worker_handle).1 =
        (instances.lookup worker_handle).isSome ∧
    (Runtime.terminate
        (Runtime.terminate instances worker_handle).2 worker_handle).1 =
      false := by
  refine ⟨rfl, ?_⟩
  simp [Runtime.terminate, LruCache.remove, lookup_filter_ne]

/-! ## The load metric (runtime.rs, `Runtime::load` lines 226-246 and
`compute_usage_saturating` lines 295-304)

IEEE-754 binary64 is modelled by exact rationals plus the special values;
the model omits the hardware's round-to-nearest on division and
multiplication results.  Every theorem below therefore states only
properties on which that rounding has no influence: the special-value and
zero-divisor branches (where every `f64` step is exact), the sign of the
quotient (rounding preserves it), the clamp-triggered exact outputs (a
quotient above `1.0` is either clamped to `1.0` or rounds to exactly
`1.0`, giving `mul` either way, with `1.0 * mul` and the cast exact for a
`u16` `mul`), and upper bounds (rounding is monotone and `30000.0` is
representable).  Exact equalities about finite quotients strictly between
`0` and `1` are NOT faithful in this model and are not stated. -/

/-- Idealized IEEE-754 binary64 value: an exact finite rational, an
infinity, or NaN. -/
inductive F64 where
  | fin (q : ℚ)
  | posInf
  | negInf
  | nan
deriving DecidableEq

/-- `f64::is_finite`. -/
def F64.isFinite : F64 → Bool
  | .fin _ => true
  | _ => false

/-- The IEEE comparison `x > 1.0` (false on NaN). -/
def F64.gtOne : F64 → Bool
  | .fin q => decide (1 < q)
  | .posInf => true
  | _ => false

/-- IEEE division for the operand shapes reachable here (both operands
finite): NaN for `0/0` and a signed infinity for `x/0` (both exact in
IEEE), and the mathematically exact quotient when the divisor is nonzero —
the hardware additionally rounds that quotient to nearest, so only
rounding-insensitive properties of this case may be proved. -/
def F64.div : F64 → F64 → F64
  | .fin a, .fin b =>
      if b = 0 then
        if a = 0 then .nan else if 0 < a then .posInf else .negInf
      else .fin (a / b)
  | _, _ => .nan

/-- Multiplication by a nonnegative integer constant (`usage * (mul as
f64)`; `mul` is a `u16`), again without the hardware's rounding of the
product: it is exact whenever `usage` is `0.0` or `1.0` (any `u16` product
is representable), which are the only cases whose exact value the theorems
below use. -/
def F64.mulNat : F64 → Nat → F64
  | .fin q, n => .fin (q * (n : ℚ))
  | .posInf, n => if n = 0 then .nan else .posInf
  | .negInf, n => if n = 0 then .nan else .negInf
  | .nan, _ => .nan

/-- Rust's saturating `as u16` cast of an `f64`: NaN to 0, rounding toward
zero, clamped to `[0, 65535]`. -/
def F64.toU16Saturating : F64 → Nat
  | .fin q => min 65535 (Int.toNat ⌊q⌋)
  | .posInf => 65535
  | _ => 0

/-- `compute_usage_saturating` (runtime.rs lines 295-304): divide, replace a
non-finite or greater-than-one quotient by `1.0`, scale by `mul` and cast
to `u16`. -/
def compute_usage_saturating (used total : F64) (mul : Nat) : Nat :=
  F64.toU16Saturating
    (F64.mulNat
      (if !(used.div total).isFinite || (used.div total).gtOne then F64.fin 1
       else used.div total)
      mul)

/-- Modelled from the spec (§3): the runtime-wide configuration
(`crate::config::Config`, outside the source slice; fields as used by
`Runtime::load` and `Runtime::new`). -/
structure Config where
  max_num_of_instances : Nat
  max_inactive_time_ms : Nat
  max_isolate_memory_bytes : Nat
  high_memory_threshold_bytes : Nat

/-- `Runtime::load` (runtime.rs lines 226-246): sum the published memory
statistics and combine the memory and instance-count usages, each scaled
to 30000. -/
def Runtime.load (instances : List (Nat × WorkerState)) (config : Config) :
    Nat :=
  compute_usage_saturating
      (.fin ((instances.map fun x => x.2.memory_bytes).sum : ℚ))
      (.fin (config.high_memory_threshold_bytes : ℚ)) 30000 +
    compute_usage_saturating (.fin (instances.length : ℚ))
      (.fin (config.max_num_of_instances : ℚ)) 30000

lemma toU16_one_mul (mul : Nat) :
    F64.toU16Saturating (F64.mulNat (F64.fin 1) mul) ≤ mul := by
  simp only [F64.mulNat, F64.toU16Saturating, one_mul, Int.floor_natCast]
  omega

lemma compute_usage_saturating_le (used total : F64) (mul : Nat) :
    compute_usage_saturating used total mul ≤ mul := by
  unfold compute_usage_saturating
  cases hdiv : used.div total with
  | fin q =>
      by_cases h1 : 1 < q
      · rw [if_pos (by simp [F64.isFinite, F64.gtOne, h1])]
        exact toU16_one_mul mul
      · rw [if_neg (by simp [F64.isFinite, F64.gtOne, h1])]
        simp only [F64.mulNat, F64.toU16Saturating]
        have hq : q ≤ 1 := le_of_not_lt h1
        have hle : q * (mul : ℚ) ≤ (mul : ℚ) := by
          calc q * (mul : ℚ) ≤ 1 * (mul : ℚ) :=
                mul_le_mul_of_nonneg_right hq (by positivity)
            _ = (mul : ℚ) := one_mul _
        have hfl : ⌊q * (mul : ℚ)⌋ ≤ (mul : ℤ) := by
          calc ⌊q * (mul : ℚ)⌋ ≤ ⌊(mul : ℚ)⌋ := Int.floor_mono hle
            _ = (mul : ℤ) := Int.floor_natCast mul
        omega
  | posInf =>
      rw [if_pos (by simp [F64.isFinite])]
      exact toU16_one_mul mul
  | negInf =>
      rw [if_pos (by simp [F64.isFinite])]
      exact toU16_one_mul mul
  | nan =>
      rw [if_pos (by simp [F64.isFinite])]
      exact toU16_one_mul mul

/-- **C4.** Each usage component of `load` is at most 30000, so the load
metric lies in `[0, 60000]` and the `u16` sum `memory_usage +
instance_usage` cannot overflow. -/
theorem load_in_range (instances : List (Nat × WorkerState))
    (config : Config) :
    compute_usage_saturating
        (.fin ((instances.map fun x => x.2.memory_bytes).sum : ℚ))
        (.fin (config.high_memory_threshold_bytes : ℚ)) 30000 ≤ 30000 ∧
    compute_usage_saturating (.fin (instances.length : ℚ))
        (.fin (config.max_num_of_instances : ℚ)) 30000 ≤ 30000 ∧
    Runtime.load instances config ≤ 60000 ∧
    Runtime.load instances config < 2 ^ 16 := by
  have h1 := compute_usage_saturating_le
    (.fin ((instances.map fun x => x.2.memory_bytes).sum : ℚ))
    (.fin (config.high_memory_threshold_bytes : ℚ)) 30000
  have h2 := compute_usage_saturating_le (.fin (instances.length : ℚ))
    (.fin (config.max_num_of_instances : ℚ)) 30000
  refine ⟨h1, h2, ?_, ?_⟩ <;> (unfold Runtime.load; omega)

/-- The claim's formula for `usage16`: `floor(clamp01(used/total) * mul)`
with `clamp01(x) = 0` if `x` is non-finite or negative, `1` if `x > 1`,
else `x`. -/
def claimClamp01 (x : F64) : ℚ :=
  match x with
  | .fin q => if q < 0 then 0 else if 1 < q then 1 else q
  | _ => 0

/-- The claim's `usage16(used, total, mul)`. -/
def claimUsage16 (used total : F64) (mul : Nat) : Nat :=
  Int.toNat ⌊claimClamp01 (used.div total) * (mul : ℚ)⌋

/-- **C5 counterexample.** At `used = 0`, `total = 0` the quotient is NaN;
the code saturates it to `1.0` and returns `mul = 30000`, while the claim's
`clamp01` sends every non-finite quotient to `0`, giving `0`. -/
theorem compute_usage_zero_div_zero_counterexample :
    compute_usage_saturating (.fin 0) (.fin 0) 30000 = 30000 ∧
    claimUsage16 (.fin 0) (.fin 0) 30000 = 0 ∧
    compute_usage_saturating (.fin 0) (.fin 0) 30000 ≠
      claimUsage16 (.fin 0) (.fin 0) 30000 := by
  have hdiv : F64.div (.fin 0) (.fin 0) = .nan := by
    simp [F64.div]
  have h1 : compute_usage_saturating (.fin 0) (.fin 0) 30000 = 30000 := by
    unfold compute_usage_saturating
    rw [hdiv, if_pos (by simp [F64.isFinite])]
    simp only [F64.mulNat, F64.toU16Saturating, one_mul, Int.floor_natCast]
    omega
  have h2 : claimUsage16 (.fin 0) (.fin 0) 30000 = 0 := by
    unfold claimUsage16
    rw [hdiv]
    simp [claimClamp01]
  exact ⟨h1, h2, by omega⟩

lemma toU16_one_mul_eq (mul : Nat) (hmul : mul ≤ 65535) :
    F64.toU16Saturating (F64.mulNat (F64.fin 1) mul) = mul := by
  simp only [F64.mulNat, F64.toU16Saturating, one_mul, Int.floor_natCast]
  omega

/-- **C5 (amended).** The saturation behaviour of
`compute_usage_saturating`, stated so that every clause is unaffected by
the hardware's rounding of the `f64` quotient and product (rounding
preserves non-finiteness and sign; a quotient above `1` either trips the
clamp or rounds to exactly `1.0`, and `1.0 * mul` with the `u16` cast is
exact): a non-finite quotient — in particular any division by zero,
`0/0 = NaN` included — yields exactly `mul` (so the claim's `clamp01`
must send non-finite values to `1`, not `0`); a quotient greater than `1`
yields exactly `mul`; a negative quotient yields `0` through the
saturating cast; and the result never exceeds `mul`.  The exact floor
formula for quotients strictly between `0` and `1` is deliberately not
asserted: it holds only up to `f64` rounding. -/
theorem compute_usage_saturating_amended (used total : F64) (mul : Nat)
    (hmul : mul ≤ 65535) :
    ((used.div total).isFinite = false →
      compute_usage_saturating used total mul = mul) ∧
    (∀ q : ℚ, used.div total = .fin q → 1 < q →
      compute_usage_saturating used total mul = mul) ∧
    (∀ q : ℚ, used.div total = .fin q → q < 0 →
      compute_usage_saturating used total mul = 0) ∧
    compute_usage_saturating used total mul ≤ mul ∧
    (∀ a : ℚ, used = .fin a → total = .fin 0 →
      (used.div total).isFinite = false) := by
  refine ⟨?_, ?_, ?_, compute_usage_saturating_le used total mul, ?_⟩
  · intro hnf
    unfold compute_usage_saturating
    rw [if_pos (by simp [hnf])]
    exact toU16_one_mul_eq mul hmul
  · intro q hdiv h1
    unfold compute_usage_saturating
    rw [hdiv, if_pos (by simp [F64.isFinite, F64.gtOne, h1])]
    exact toU16_one_mul_eq mul hmul
  · intro q hdiv h0
    have h1 : ¬(1 < q) := by linarith
    unfold compute_usage_saturating
    rw [hdiv, if_neg (by simp [F64.isFinite, F64.gtOne, h1])]
    simp only [F64.mulNat, F64.toU16Saturating]
    have hle : q * (mul : ℚ) ≤ 0 :=
      mul_nonpos_of_nonpos_of_nonneg (le_of_lt h0) (by positivity)
    have hfl : ⌊q * (mul : ℚ)⌋ ≤ 0 := by
      calc ⌊q * (mul : ℚ)⌋ ≤ ⌊(0 : ℚ)⌋ := Int.floor_mono hle
        _ = 0 := Int.floor_zero
    omega
  · intro a ha hb
    subst ha
    subst hb
    simp only [F64.div, if_pos rfl]
    by_cases h : a = 0
    · simp [h, F64.isFinite]
    · by_cases h2 : 0 < a
      · simp [h, h2, F64.isFinite]
      · simp [h, h2, F64.isFinite]

theorem compute_usage_saturating_amended_witness :
    (30000 ≤ 65535 ∧
      ((F64.fin 1).div (F64.fin 0)).isFinite = false ∧
      compute_usage_saturating (F64.fin 1) (F64.fin 0) 30000 = 30000) ∧
    ((F64.fin 9).div (F64.fin 4) = F64.fin (9 / 4 : ℚ) ∧ (1 : ℚ) < 9 / 4 ∧
      compute_usage_saturating (F64.fin 9) (F64.fin 4) 30000 = 30000) ∧
    ((F64.fin (-3)).div (F64.fin 4) = F64.fin (-3 / 4 : ℚ) ∧
      (-3 / 4 : ℚ) < 0 ∧
      compute_usage_saturating (F64.fin (-3)) (F64.fin 4) 30000 = 0) := by
  have hnf : ((F64.fin 1).div (F64.fin 0)).isFinite = false := by
    simp [F64.div, F64.isFinite]
  have hq1 : (F64.fin 9).div (F64.fin 4) = F64.fin (9 / 4 : ℚ) := by
    norm_num [F64.div]
  have hq2 : (F64.fin (-3)).div (F64.fin 4) = F64.fin (-3 / 4 : ℚ) := by
    norm_num [F64.div]
  refine ⟨⟨by norm_num, hnf, ?_⟩, ⟨hq1, by norm_num, ?_⟩,
    ⟨hq2, by norm_num, ?_⟩⟩
  · exact (compute_usage_saturating_amended (F64.fin 1) (F64.fin 0) 30000
      (by norm_num)).1 hnf
  · exact (compute_usage_saturating_amended (F64.fin 9) (F64.fin 4) 30000
      (by norm_num)).2.1 (9 / 4 : ℚ) hq1 (by norm_num)
  · exact (compute_usage_saturating_amended (F64.fin (-3)) (F64.fin 4) 30000
      (by norm_num)).2.2.1 (-3 / 4 : ℚ) hq2 (by norm_num)

/-! ## The text encode/decode API (src/api/mod.rs, `api_encode` lines
192-204 and `api_decode` lines 206-217)

Strings are modelled as lists of Unicode scalar values and byte buffers as
lists of bytes.  `api_encode` returns the UTF-8 bytes of the string;
`api_decode` is `String::from_utf8_lossy`, modelled byte-exactly from its
documented WHATWG semantics (each maximal ill-formed subsequence is
replaced by one U+FFFD). -/

/-- A Unicode scalar value: below `0x110000` and not a surrogate. -/
def IsScalar (c : Nat) : Prop :=
  c < 0x110000 ∧ (c < 0xD800 ∨ 0xE000 ≤ c)

instance (c : Nat) : Decidable (IsScalar c) := by
  unfold IsScalar; infer_instance

/-- The UTF-8 encoding of one scalar value (1 to 4 bytes). -/
def utf8EncodeChar (c : Nat) : List Nat :=
  if c < 0x80 then [c]
  else if c < 0x800 then [0xC0 + c / 64, 0x80 + c % 64]
  else if c < 0x10000 then
    [0xE0 + c / 4096, 0x80 + c / 64 % 64, 0x80 + c % 64]
  else
    [0xF0 + c / 262144, 0x80 + c / 4096 % 64, 0x80 + c / 64 % 64,
      0x80 + c % 64]

/-- `api_encode` (mod.rs lines 192-204): the argument string's UTF-8
bytes (`to_rust_string_lossy(..).into_bytes()`). -/
def api_encode : List Nat → List Nat
  | [] => []
  | c :: rest => utf8EncodeChar c ++ api_encode rest

/-- A UTF-8 continuation byte (`0x80..=0xBF`). -/
def isCont (b : Nat) : Bool :=
  decide (0x80 ≤ b ∧ b < 0xC0)

/-- The allowed second byte of a three-byte sequence (per the UTF-8
validation table: `0xE0` requires `0xA0..=0xBF`, `0xED` requires
`0x80..=0x9F`, the rest a plain continuation byte). -/
def valid3Second (b0 b1 : Nat) : Bool :=
  if b0 = 0xE0 then decide (0xA0 ≤ b1 ∧ b1 < 0xC0)
  else if b0 = 0xED then decide (0x80 ≤ b1 ∧ b1 < 0xA0)
  else isCont b1

/-- The allowed second byte of a four-byte sequence (`0xF0` requires
`0x90..=0xBF`, `0xF4` requires `0x80..=0x8F`). -/
def valid4Second (b0 b1 : Nat) : Bool :=
  if b0 = 0xF0 then decide (0x90 ≤ b1 ∧ b1 < 0xC0)
  else if b0 = 0xF4 then decide (0x80 ≤ b1 ∧ b1 < 0x90)
  else isCont b1

/-- One step of lossy UTF-8 decoding at the head of the buffer: the scalar
produced (U+FFFD on an ill-formed subsequence), the number of bytes
consumed (the maximal ill-formed subsequence length on error, per
`String::from_utf8_lossy`), and whether the bytes were well-formed. -/
def utf8DecodeStep : List Nat → Nat × Nat × Bool
  | [] => (0xFFFD, 1, false)
  | b0 :: rest =>
    if b0 < 0x80 then (b0, 1, true)
    else if b0 < 0xC2 then (0xFFFD, 1, false)
    else if b0 < 0xE0 then
      match rest with
      | b1 :: _ =>
          if isCont b1 then ((b0 - 0xC0) * 64 + (b1 - 0x80), 2, true)
          else (0xFFFD, 1, false)
      | [] => (0xFFFD, 1, false)
    else if b0 < 0xF0 then
      match rest with
      | b1 :: rest1 =>
          if valid3Second b0 b1 then
            match rest1 with
            | b2 :: _ =>
                if isCont b2 then
                  ((b0 - 0xE0) * 4096 + (b1 - 0x80) * 64 + (b2 - 0x80), 3,
                    true)
                else (0xFFFD, 2, false)
            | [] => (0xFFFD, 2, false)
          else (0xFFFD, 1, false)
      | [] => (0xFFFD, 1, false)
    else if b0 < 0xF5 then
      match rest with
      | b1 :: rest1 =>
          if valid4Second b0 b1 then
            match rest1 with
            | b2 :: rest2 =>
                if isCont b2 then
                  match rest2 with
                  | b3 :: _ =>
                      if isCont b3 then
                        ((b0 - 0xF0) * 262144 + (b1 - 0x80) * 4096 +
                          (b2 - 0x80) * 64 + (b3 - 0x80), 4, true)
                      else (0xFFFD, 3, false)
                  | [] => (0xFFFD, 3, false)
                else (0xFFFD, 2, false)
            | [] => (0xFFFD, 2, false)
          else (0xFFFD, 1, false)
      | [] => (0xFFFD, 1, false)
    else (0xFFFD, 1, false)

/-- Driver of the lossy decoder; the fuel argument (instantiated with the
buffer length, which every step strictly decreases) keeps the recursion
structural. -/
def utf8LossyDecodeAux : Nat → List Nat → List Nat
  | _, [] => []
  | Nat.zero, _ :: _ => []
  | Nat.succ fuel, b0 :: rest =>
      (utf8DecodeStep (b0 :: rest)).1 ::
        utf8LossyDecodeAux fuel
          (rest.drop ((utf8DecodeStep (b0 :: rest)).2.1 - 1))

/-- `String::from_utf8_lossy`: decode the buffer, replacing each maximal
ill-formed subsequence with U+FFFD. -/
def utf8LossyDecode (l : List Nat) : List Nat :=
  utf8LossyDecodeAux l.length l

/-- `api_decode` (mod.rs lines 206-217): copy the byte buffer and decode it
with `String::from_utf8_lossy`. -/
def api_decode (buf : List Nat) : List Nat :=
  utf8LossyDecode buf

/-- Driver of the strict UTF-8 validator (`str::from_utf8` succeeding),
sharing `utf8DecodeStep` with the decoder. -/
def isValidUtf8Aux : Nat → List Nat → Bool
  | _, [] => true
  | Nat.zero, _ :: _ => false
  | Nat.succ fuel, b0 :: rest =>
      (utf8DecodeStep (b0 :: rest)).2.2 &&
        isValidUtf8Aux fuel
          (rest.drop ((utf8DecodeStep (b0 :: rest)).2.1 - 1))

/-- Whether a byte buffer is well-formed UTF-8. -/
def isValidUtf8 (l : List Nat) : Bool :=
  isValidUtf8Aux l.length l

lemma utf8LossyDecodeAux_fuel (f1 : Nat) :
    ∀ (f2 : Nat) (l : List Nat), l.length ≤ f1 → l.length ≤ f2 →
      utf8LossyDecodeAux f1 l = utf8LossyDecodeAux f2 l := by
  induction f1 with
  | zero =>
      intro f2 l h1 _
      have hnil : l = [] := List.eq_nil_of_length_eq_zero (Nat.le_zero.mp h1)
      subst hnil
      cases f2 <;> rfl
  | succ f1 ih =>
      intro f2 l h1 h2
      cases l with
      | nil => cases f2 <;> rfl
      | cons b0 rest =>
          cases f2 with
          | zero => simp at h2
          | succ f2 =>
              simp only [utf8LossyDecodeAux]
              have h1' : rest.length ≤ f1 := by simp at h1; omega
              have h2' : rest.length ≤ f2 := by simp at h2; omega
              have hd :
                  (rest.drop ((utf8DecodeStep (b0 :: rest)).2.1 - 1)).length ≤
                    rest.length := by
                rw [List.length_drop]; omega
              exact congrArg _ (ih f2 _ (le_trans hd h1') (le_trans hd h2'))

lemma isValidUtf8Aux_fuel (f1 : Nat) :
    ∀ (f2 : Nat) (l : List Nat), l.length ≤ f1 → l.length ≤ f2 →
      isValidUtf8Aux f1 l = isValidUtf8Aux f2 l := by
  induction f1 with
  | zero =>
      intro f2 l h1 _
      have hnil : l = [] := List.eq_nil_of_length_eq_zero (Nat.le_zero.mp h1)
      subst hnil
      cases f2 <;> rfl
  | succ f1 ih =>
      intro f2 l h1 h2
      cases l with
      | nil => cases f2 <;> rfl
      | cons b0 rest =>
          cases f2 with
          | zero => simp at h2
          | succ f2 =>
              simp only [isValidUtf8Aux]
              have h1' : rest.length ≤ f1 := by simp at h1; omega
              have h2' : rest.length ≤ f2 := by simp at h2; omega
              have hd :
                  (rest.drop ((utf8DecodeStep (b0 :: rest)).2.1 - 1)).length ≤
                    rest.length := by
                rw [List.length_drop]; omega
              exact congrArg _ (ih f2 _ (le_trans hd h1') (le_trans hd h2'))

lemma utf8LossyDecode_cons (b0 : Nat) (rest : List Nat) :
    utf8LossyDecode (b0 :: rest) =
      (utf8DecodeStep (b0 :: rest)).1 ::
        utf8LossyDecode
          (rest.drop ((utf8DecodeStep (b0 :: rest)).2.1 - 1)) := by
  unfold utf8LossyDecode
  simp only [List.length_cons, utf8LossyDecodeAux]
  refine congrArg _ (utf8LossyDecodeAux_fuel rest.length _ _ ?_ (le_refl _))
  rw [List.length_drop]; omega

lemma isValidUtf8_cons (b0 : Nat) (rest : List Nat) :
    isValidUtf8 (b0 :: rest) =
      ((utf8DecodeStep (b0 :: rest)).2.2 &&
        isValidUtf8
          (rest.drop ((utf8DecodeStep (b0 :: rest)).2.1 - 1))) := by
  unfold isValidUtf8
  simp only [List.length_cons, isValidUtf8Aux]
  refine congrArg _ (isValidUtf8Aux_fuel rest.length _ _ ?_ (le_refl _))
  rw [List.length_drop]; omega

lemma utf8DecodeStep_enc1 (c : Nat) (h : c < 0x80) (bs : List Nat) :
    utf8DecodeStep (c :: bs) = (c, 1, true) := by
  simp only [utf8DecodeStep]
  rw [if_pos h]

lemma utf8DecodeStep_enc2 (c : Nat) (h1 : 0x80 ≤ c) (h2 : c < 0x800)
    (bs : List Nat) :
    utf8DecodeStep ((0xC0 + c / 64) :: (0x80 + c % 64) :: bs) = (c, 2, true) := by
  have hcont : isCont (0x80 + c % 64) = true := by
    simp only [isCont, decide_eq_true_eq]; omega
  simp only [utf8DecodeStep]
  rw [if_neg (by omega : ¬(0xC0 + c / 64 < 0x80)),
    if_neg (by omega : ¬(0xC0 + c / 64 < 0xC2)),
    if_pos (by omega : 0xC0 + c / 64 < 0xE0)]
  simp only [hcont, if_true]
  have hc' : (0xC0 + c / 64 - 0xC0) * 64 + (0x80 + c % 64 - 0x80) = c := by
    omega
  rw [hc']

lemma utf8DecodeStep_enc3 (c : Nat) (h1 : 0x800 ≤ c) (h2 : c < 0x10000)
    (hs : c < 0xD800 ∨ 0xE000 ≤ c) (bs : List Nat) :
    utf8DecodeStep
        ((0xE0 + c / 4096) :: (0x80 + c / 64 % 64) :: (0x80 + c % 64) ::
          bs) =
      (c, 3, true) := by
  have hv : valid3Second (0xE0 + c / 4096) (0x80 + c / 64 % 64) = true := by
    unfold valid3Second
    by_cases hE : 0xE0 + c / 4096 = 0xE0
    · rw [if_pos hE]; simp only [decide_eq_true_eq]; omega
    · rw [if_neg hE]
      by_cases hD : 0xE0 + c / 4096 = 0xED
      · rw [if_pos hD]; simp only [decide_eq_true_eq]; omega
      · rw [if_neg hD]; simp only [isCont, decide_eq_true_eq]; omega
  have hc2 : isCont (0x80 + c % 64) = true := by
    simp only [isCont, decide_eq_true_eq]; omega
  simp only [utf8DecodeStep]
  rw [if_neg (by omega : ¬(0xE0 + c / 4096 < 0x80)),
    if_neg (by omega : ¬(0xE0 + c / 4096 < 0xC2)),
    if_neg (by omega : ¬(0xE0 + c / 4096 < 0xE0)),
    if_pos (by omega : 0xE0 + c / 4096 < 0xF0)]
  simp only [hv, hc2, if_true]
  have hc' : (0xE0 + c / 4096 - 0xE0) * 4096 +
      (0x80 + c / 64 % 64 - 0x80) * 64 + (0x80 + c % 64 - 0x80) = c := by
    omega
  rw [hc']

lemma utf8DecodeStep_enc4 (c : Nat) (h1 : 0x10000 ≤ c) (h2 : c < 0x110000)
    (bs : List Nat) :
    utf8DecodeStep
        ((0xF0 + c / 262144) :: (0x80 + c / 4096 % 64) ::
          (0x80 + c / 64 % 64) :: (0x80 + c % 64) :: bs) =
      (c, 4, true) := by
  have hv : valid4Second (0xF0 + c / 262144) (0x80 + c / 4096 % 64) = true := by
    unfold valid4Second
    by_cases hF0 : 0xF0 + c / 262144 = 0xF0
    · rw [if_pos hF0]; simp only [decide_eq_true_eq]; omega
    · rw [if_neg hF0]
      by_cases hF4 : 0xF0 + c / 262144 = 0xF4
      · rw [if_pos hF4]; simp only [decide_eq_true_eq]; omega
      · rw [if_neg hF4]; simp only [isCont, decide_eq_true_eq]; omega
  have hc2 : isCont (0x80 + c / 64 % 64) = true := by
    simp only [isCont, decide_eq_true_eq]; omega
  have hc3 : isCont (0x80 + c % 64) = true := by
    simp only [isCont, decide_eq_true_eq]; omega
  simp only [utf8DecodeStep]
  rw [if_neg (by omega : ¬(0xF0 + c / 262144 < 0x80)),
    if_neg (by omega : ¬(0xF0 + c / 262144 < 0xC2)),
    if_neg (by omega : ¬(0xF0 + c / 262144 < 0xE0)),
    if_neg (by omega : ¬(0xF0 + c / 262144 < 0xF0)),
    if_pos (by omega : 0xF0 + c / 262144 < 0xF5)]
  simp only [hv, hc2, hc3, if_true]
  have hc' : (0xF0 + c / 262144 - 0xF0) * 262144 +
      (0x80 + c / 4096 % 64 - 0x80) * 4096 +
      (0x80 + c / 64 % 64 - 0x80) * 64 + (0x80 + c % 64 - 0x80) = c := by
    omega
  rw [hc']

lemma utf8LossyDecode_encodeChar (c : Nat) (hc : IsScalar c)
    (bs : List Nat) :
    utf8LossyDecode (utf8EncodeChar c ++ bs) = c :: utf8LossyDecode bs := by
  obtain ⟨hlt, hs⟩ := hc
  by_cases h1 : c < 0x80
  · have henc : utf8EncodeChar c = [c] := by
      unfold utf8EncodeChar; rw [if_pos h1]
    rw [henc, List.singleton_append, utf8LossyDecode_cons,
      utf8DecodeStep_enc1 c h1 bs]
    rfl
  · by_cases h2 : c < 0x800
    · have henc : utf8EncodeChar c = [0xC0 + c / 64, 0x80 + c % 64] := by
        unfold utf8EncodeChar; rw [if_neg h1, if_pos h2]
      rw [henc, List.cons_append, List.cons_append, List.nil_append,
        utf8LossyDecode_cons, utf8DecodeStep_enc2 c (by omega) h2 bs]
      rfl
    · by_cases h3 : c < 0x10000
      · have henc : utf8EncodeChar c =
            [0xE0 + c / 4096, 0x80 + c / 64 % 64, 0x80 + c % 64] := by
          unfold utf8EncodeChar; rw [if_neg h1, if_neg h2, if_pos h3]
        rw [henc, List.cons_append, List.cons_append, List.cons_append,
          List.nil_append, utf8LossyDecode_cons,
          utf8DecodeStep_enc3 c (by omega) h3 hs bs]
        rfl
      · have henc : utf8EncodeChar c =
            [0xF0 + c / 262144, 0x80 + c / 4096 % 64, 0x80 + c / 64 % 64,
              0x80 + c % 64] := by
          unfold utf8EncodeChar; rw [if_neg h1, if_neg h2, if_neg h3]
        rw [henc, List.cons_append, List.cons_append, List.cons_append,
          List.cons_append, List.nil_append, utf8LossyDecode_cons,
          utf8DecodeStep_enc4 c (by omega) hlt bs]
        rfl

lemma isValidUtf8_encodeChar (c : Nat) (hc : IsScalar c) (bs : List Nat) :
    isValidUtf8 (utf8EncodeChar c ++ bs) = isValidUtf8 bs := by
  obtain ⟨hlt, hs⟩ := hc
  by_cases h1 : c < 0x80
  · have henc : utf8EncodeChar c = [c] := by
      unfold utf8EncodeChar; rw [if_pos h1]
    rw [henc, List.singleton_append, isValidUtf8_cons,
      utf8DecodeStep_enc1 c h1 bs]
    rfl
  · by_cases h2 : c < 0x800
    · have henc : utf8EncodeChar c = [0xC0 + c / 64, 0x80 + c % 64] := by
        unfold utf8EncodeChar; rw [if_neg h1, if_pos h2]
      rw [henc, List.cons_append, List.cons_append, List.nil_append,
        isValidUtf8_cons, utf8DecodeStep_enc2 c (by omega) h2 bs]
      rfl
    · by_cases h3 : c < 0x10000
      · have henc : utf8EncodeChar c =
            [0xE0 + c / 4096, 0x80 + c / 64 % 64, 0x80 + c % 64] := by
          unfold utf8EncodeChar; rw [if_neg h1, if_neg h2, if_pos h3]
        rw [henc, List.cons_append, List.cons_append, List.cons_append,
          List.nil_append, isValidUtf8_cons,
          utf8DecodeStep_enc3 c (by omega) h3 hs bs]
        rfl
      · have henc : utf8EncodeChar c =
            [0xF0 + c / 262144, 0x80 + c / 4096 % 64, 0x80 + c / 64 % 64,
              0x80 + c % 64] := by
          unfold utf8EncodeChar; rw [if_neg h1, if_neg h2, if_neg h3]
        rw [henc, List.cons_append, List.cons_append, List.cons_append,
          List.cons_append, List.nil_append, isValidUtf8_cons,
          utf8DecodeStep_enc4 c (by omega) hlt bs]
        rfl

lemma utf8LossyDecode_encode (s : List Nat) (h : ∀ c ∈ s, IsScalar c) :
    utf8LossyDecode (api_encode s) = s := by
  induction s with
  | nil => rfl
  | cons c rest ih =>
      rw [api_encode, utf8LossyDecode_encodeChar c (h c (by simp)) _,
        ih (fun x hx => h x (by simp [hx]))]

lemma isValidUtf8_encode (s : List Nat) (h : ∀ c ∈ s, IsScalar c) :
    isValidUtf8 (api_encode s) = true := by
  induction s with
  | nil => rfl
  | cons c rest ih =>
      rw [api_encode, isValidUtf8_encodeChar c (h c (by simp)) _,
        ih (fun x hx => h x (by simp [hx]))]

lemma utf8DecodeStep_ok_or_rc (l : List Nat) :
    (utf8DecodeStep l).2.2 = true ∨ (utf8DecodeStep l).1 = 0xFFFD := by
  cases l with
  | nil => exact Or.inr rfl
  | cons b0 rest =>
      simp only [utf8DecodeStep]
      repeat' split
      all_goals first | exact Or.inl rfl | exact Or.inr rfl

lemma rc_mem_of_invalid :
    ∀ (n : Nat) (l : List Nat), l.length ≤ n → isValidUtf8 l = false →
      (0xFFFD : Nat) ∈ utf8LossyDecode l := by
  intro n
  induction n with
  | zero =>
      intro l hl hv
      have hnil : l = [] := List.eq_nil_of_length_eq_zero (Nat.le_zero.mp hl)
      subst hnil
      simp [isValidUtf8, isValidUtf8Aux] at hv
  | succ n ih =>
      intro l hl hv
      cases l with
      | nil => simp [isValidUtf8, isValidUtf8Aux] at hv
      | cons b0 rest =>
          rw [isValidUtf8_cons] at hv
          rw [utf8LossyDecode_cons]
          rcases utf8DecodeStep_ok_or_rc (b0 :: rest) with hok | hrc
          · rw [hok, Bool.true_and] at hv
            refine List.mem_cons_of_mem _ (ih _ ?_ hv)
            rw [List.length_drop]
            simp at hl
            omega
          · rw [hrc]
            exact List.mem_cons_self _ _

/-- **C9.** Decoding the bytes produced by `api_encode` yields the original
string back for every sequence of Unicode scalar values (whose UTF-8 bytes
are, indeed, valid UTF-8); a byte buffer that is not valid UTF-8 decodes
through `api_decode`'s replacement-character normalization, its output
containing U+FFFD. -/
theorem api_encode_decode_roundtrip :
    (∀ s : List Nat, (∀ c ∈ s, IsScalar c) →
      api_decode (api_encode s) = s) ∧
    (∀ s : List Nat, (∀ c ∈ s, IsScalar c) →
      isValidUtf8 (api_encode s) = true) ∧
    (∀ b : List Nat, isValidUtf8 b = false →
      (0xFFFD : Nat) ∈ api_decode b) :=
  ⟨fun s h => utf8LossyDecode_encode s h,
    fun s h => isValidUtf8_encode s h,
    fun b hb => rc_mem_of_invalid b.length b (le_refl _) hb⟩

theorem api_encode_decode_roundtrip_witness :
    (∀ c ∈ [0x48, 0xE9, 0x20AC, 0x1F600], IsScalar c) ∧
    api_decode (api_encode [0x48, 0xE9, 0x20AC, 0x1F600]) =
      [0x48, 0xE9, 0x20AC, 0x1F600] ∧
    isValidUtf8 [0xC3, 0x28] = false ∧
    (0xFFFD : Nat) ∈ api_decode [0xC3, 0x28] :=
  ⟨by decide, api_encode_decode_roundtrip.1 _ (by decide), by decide,
    api_encode_decode_roundtrip.2.2 _ (by decide)⟩

end Blueboat
